import Mathlib

/-!
Shallow embedding of `src/Phantom/app.py`: an ephemeral token-scoped
real-time relay.  The in-memory registry `active_rooms` is modelled as an
association list (Python dicts have unique keys and preserve insertion
order); wall-clock time (`time.time()`) is an abstract integer timestamp
passed explicitly to the operations that read it; the random token from
`secrets.token_urlsafe` is a parameter of `generate_token`.  Socket-IO
side effects (`join_room`, `leave_room`, `emit`) are reified as a list of
actions returned by each handler, and a `KeyError` raised by a `data[k]`
subscript on a missing key is modelled with `Except`.
-/

namespace Phantom


/-- A registry entry: `{ 'expiry': timestamp, 'users': count }`. -/
structure Room where
  expiry : Int
  users : Int
deriving Repr, DecidableEq

/-- The `active_rooms` dict: token -> Room, unique keys, insertion order. -/
abbrev Registry := List (String × Room)

/-- `ROOM_TTL = 600` (app.py line 15). -/
def ROOM_TTL : Int := 600

/-- Dict lookup `active_rooms[token]` / membership `token in active_rooms`. -/
def lookupRoom (st : Registry) (t : String) : Option Room :=
  (st.find? (fun p => p.1 == t)).map (fun p => p.2)

/-- Dict assignment `active_rooms[token] = room`: overwrite in place if the
key is present, append otherwise. -/
def setRoom : Registry → String → Room → Registry
  | [], t, rm => [(t, rm)]
  | p :: rest, t, rm =>
      if p.1 == t then (t, rm) :: rest else p :: setRoom rest t rm

/-- Dict deletion `del active_rooms[token]` (keys are unique, so removing
the first occurrence is exact). -/
def eraseRoom : Registry → String → Registry
  | [], _ => []
  | p :: rest, t => if p.1 == t then rest else p :: eraseRoom rest t

/-- An inbound socket event payload (`data`).  Each key the handlers ever
read is an `Option`: `none` models a missing key. -/
structure Data where
  token : Option String := none
  msg : Option String := none
  sender_id : Option String := none
  msg_id : Option Int := none
  timestamp : Option Int := none
  sender_socket_id : Option String := none
  ping : Option Int := none
deriving Repr, DecidableEq

/-- Payload of an outbound emit. -/
inductive OutPayload where
  | status (count : Int)
  | message (d : Data)
  | delivered (msgId : Int)
  | empty
  | metrics (ping : Int)
deriving Repr, DecidableEq

/-- A reified socket side effect: transport-level room grouping calls and
`emit(event, payload, room=..., include_self=...)`. -/
inductive Act where
  | joinRoom (token : String)
  | leaveRoom (token : String)
  | emit (event : String) (payload : OutPayload) (room : String)
      (includeSelf : Bool)
deriving Repr, DecidableEq

/-- A Python exception escaping a handler. -/
inductive Err where
  | keyError (key : String)
deriving Repr, DecidableEq

/-- What a handler produces: either an escaped Python exception, or the
new registry together with the side effects it issued, in order.  A
subscript `data[key]` on a missing key raises `KeyError` (unlike
`data.get(key)`, which yields `None`); the missing-key case of each
`match` below models exactly that subscript. -/
abbrev HandlerResult := Except Err (Registry × List Act)

/-- Handler for `join` (app.py lines 56-63): reads `data['token']`; if the
token is a key of `active_rooms` it joins the transport room, increments
`users` in place, and broadcasts the new count to the room. -/
def on_join (st : Registry) (d : Data) : HandlerResult :=
  match d.token with
  | none => Except.error (Err.keyError "token")
  | some token =>
      match lookupRoom st token with
      | some rm =>
          Except.ok (setRoom st token { rm with users := rm.users + 1 },
            [Act.joinRoom token,
             Act.emit "update_status" (OutPayload.status (rm.users + 1))
               token true])
      | none => Except.ok (st, [])

/-- Handler for `leave` (app.py lines 65-71): decrement floored at 0 via
`max(0, users - 1)`, then broadcast the new count. -/
def on_leave (st : Registry) (d : Data) : HandlerResult :=
  match d.token with
  | none => Except.error (Err.keyError "token")
  | some token =>
      match lookupRoom st token with
      | some rm =>
          Except.ok (setRoom st token { rm with users := max 0 (rm.users - 1) },
            [Act.leaveRoom token,
             Act.emit "update_status"
               (OutPayload.status (max 0 (rm.users - 1))) token true])
      | none => Except.ok (st, [])

/-- Handler for `message` (app.py lines 73-79): if the token is a key of
`active_rooms`, relay the payload verbatim to the room. -/
def handle_message (st : Registry) (d : Data) : HandlerResult :=
  match d.token with
  | none => Except.error (Err.keyError "token")
  | some token =>
      match lookupRoom st token with
      | some _ =>
          Except.ok (st, [Act.emit "message" (OutPayload.message d) token
            true])
      | none => Except.ok (st, [])

/-- Handler for `confirm_delivery` (app.py lines 81-89):
`data.get('sender_socket_id')` never raises; `if sender_sid:` is Python
truthiness, so both a missing key and an empty string skip the send;
`data['msg_id']` raises `KeyError` when absent. -/
def confirm_delivery (st : Registry) (d : Data) : HandlerResult :=
  match d.sender_socket_id with
  | none => Except.ok (st, [])
  | some s =>
      if s = "" then Except.ok (st, [])
      else
        match d.msg_id with
        | none => Except.error (Err.keyError "msg_id")
        | some m =>
            Except.ok (st,
              [Act.emit "msg_delivered" (OutPayload.delivered m) s true])

/-- Handler for `typing` (app.py lines 91-94): no registry check at all;
emits to the room named by the token, excluding the sender. -/
def handle_typing (st : Registry) (d : Data) : HandlerResult :=
  match d.token with
  | none => Except.error (Err.keyError "token")
  | some token =>
      Except.ok (st, [Act.emit "display_typing" OutPayload.empty token
        false])

/-- Handler for `stop_typing` (app.py lines 96-99). -/
def handle_stop_typing (st : Registry) (d : Data) : HandlerResult :=
  match d.token with
  | none => Except.error (Err.keyError "token")
  | some token =>
      Except.ok (st, [Act.emit "hide_typing" OutPayload.empty token false])

/-- Handler for `ping_check` (app.py lines 101-103): returns the current
server time as the ack value; touches nothing else. -/
def ping_check (st : Registry) (now : Int) : Registry × Int := (st, now)

/-- Handler for `share_metrics` (app.py lines 105-108): no registry check;
broadcasts `{'ping': data['ping']}` to the token's room, excluding the
sender. -/
def share_metrics (st : Registry) (d : Data) : HandlerResult :=
  match d.token with
  | none => Except.error (Err.keyError "token")
  | some token =>
      match d.ping with
      | none => Except.error (Err.keyError "ping")
      | some pg =>
          Except.ok (st, [Act.emit "update_peer_metrics"
            (OutPayload.metrics pg) token false])

/-- The `/generate_token` endpoint (app.py lines 35-42): insert a fresh
room with `expiry = now + ROOM_TTL`, `users = 0` (silently overwriting an
existing token) and answer `{token, expires_in: ROOM_TTL}`.  The random
token is a parameter. -/
def generate_token (st : Registry) (token : String) (now : Int) :
    Registry × String × Int :=
  (setRoom st token { expiry := now + ROOM_TTL, users := 0 }, token,
    ROOM_TTL)

/-- Response of `/validate_token`: `{valid: bool, remaining?: seconds}`,
`remaining` absent when invalid. -/
structure ValidateResp where
  valid : Bool
  remaining : Option Int
deriving Repr, DecidableEq

/-- The `/validate_token` endpoint (app.py lines 44-52):
`data.get('token')` yields `None` on a missing key, which is never a dict
key, so the membership test fails and `{valid: False}` is returned. -/
def validate_token (st : Registry) (tok : Option String) (now : Int) :
    ValidateResp :=
  match tok with
  | none => { valid := false, remaining := none }
  | some t =>
      match lookupRoom st t with
      | some rm =>
          if rm.expiry - now > 0 then
            { valid := true, remaining := some (rm.expiry - now) }
          else { valid := false, remaining := none }
      | none => { valid := false, remaining := none }

/-- One pass of the sweeper body (app.py lines 21-26): iterate over a
snapshot of the keys; for each key whose room satisfies
`current_time > expiry`, emit `room_expired` to that room and delete the
entry.  A key absent from the live dict is skipped (unreachable when the
snapshot's keys are unique). -/
def cleanupLoop (now : Int) :
    List String → Registry → List Act → Registry × List Act
  | [], st, acts => (st, acts)
  | t :: ks, st, acts =>
      match lookupRoom st t with
      | some rm =>
          if now > rm.expiry then
            cleanupLoop now ks (eraseRoom st t)
              (acts ++ [Act.emit "room_expired" OutPayload.empty t true])
          else cleanupLoop now ks st acts
      | none => cleanupLoop now ks st acts

/-- One iteration of `cleanup_rooms` at time `now` (app.py lines 17-26),
returning the surviving registry and the emitted notifications. -/
def cleanup_rooms (st : Registry) (now : Int) : Registry × List Act :=
  cleanupLoop now (st.map (fun p => p.1)) st []

/-- Registry after running a handler: an escaped exception leaves the
global dict as the handler last left it (none of the handlers mutate the
registry before a possible raise). -/
def regAfter (st : Registry) (r : HandlerResult) : Registry :=
  match r with
  | Except.ok (st', _) => st'
  | Except.error _ => st

/-- Delivery semantics of one reified action: `groups` maps a Socket-IO
room name to the session ids currently in it (each session id also names
its own personal room, maintained by the transport); an emit with
`include_self=False` excludes the sending connection. -/
def recipients (groups : String → List String) (sender : String) :
    Act → List String
  | Act.emit _ _ room includeSelf =>
      if includeSelf then groups room
      else (groups room).filter (fun c => c != sender)
  | _ => []

/-! Basic dictionary lemmas. -/

theorem lookupRoom_nil (t : String) : lookupRoom [] t = none := rfl

theorem lookupRoom_cons_self (t : String) (rm : Room) (rest : Registry) :
    lookupRoom ((t, rm) :: rest) t = some rm := by
  simp [lookupRoom, List.find?]

theorem lookupRoom_cons_ne (p : String × Room) (rest : Registry)
    (t : String) (h : p.1 ≠ t) :
    lookupRoom (p :: rest) t = lookupRoom rest t := by
  have hb : (p.1 == t) = false := by simpa using h
  simp [lookupRoom, List.find?, hb]

theorem lookupRoom_append_left_none (pre rest : Registry) (t : String)
    (h : t ∉ pre.map (fun p => p.1)) :
    lookupRoom (pre ++ rest) t = lookupRoom rest t := by
  induction pre with
  | nil => simp
  | cons p pre ih =>
      simp only [List.map_cons, List.mem_cons] at h
      push_neg at h
      rw [List.cons_append, lookupRoom_cons_ne _ _ _ (Ne.symm h.1), ih h.2]

theorem mem_of_lookupRoom (st : Registry) (t : String) (rm : Room)
    (h : lookupRoom st t = some rm) : (t, rm) ∈ st := by
  induction st with
  | nil => simp [lookupRoom] at h
  | cons p rest ih =>
      by_cases hp : p.1 = t
      · subst hp
        rw [show p = (p.1, p.2) from rfl, lookupRoom_cons_self] at h
        cases h
        simp
      · rw [lookupRoom_cons_ne _ _ _ hp] at h
        exact List.mem_cons_of_mem _ (ih h)

theorem lookupRoom_setRoom_self (st : Registry) (t : String) (rm : Room) :
    lookupRoom (setRoom st t rm) t = some rm := by
  induction st with
  | nil => simp [setRoom, lookupRoom, List.find?]
  | cons p rest ih =>
      by_cases hp : p.1 = t
      · simp [setRoom, hp, lookupRoom_cons_self]
      · have hb : (p.1 == t) = false := by simpa using hp
        have hs : setRoom (p :: rest) t rm = p :: setRoom rest t rm := by
          simp [setRoom, hb]
        rw [hs, lookupRoom_cons_ne _ _ _ hp]
        exact ih

theorem mem_setRoom (st : Registry) (t : String) (rm : Room)
    (p : String × Room) (h : p ∈ setRoom st t rm) :
    p = (t, rm) ∨ p ∈ st := by
  induction st with
  | nil => simpa [setRoom] using h
  | cons q rest ih =>
      by_cases hq : q.1 = t
      · have hb : (q.1 == t) = true := by simpa using hq
        simp only [setRoom, hb, if_true] at h
        rcases List.mem_cons.mp h with h1 | h1
        · exact Or.inl h1
        · exact Or.inr (List.mem_cons_of_mem _ h1)
      · have hb : (q.1 == t) = false := by simpa using hq
        simp only [setRoom, hb, if_false] at h
        rcases List.mem_cons.mp h with h1 | h1
        · exact Or.inr (by simp [h1])
        · rcases ih h1 with h2 | h2
          · exact Or.inl h2
          · exact Or.inr (List.mem_cons_of_mem _ h2)

theorem mem_eraseRoom (st : Registry) (t : String) (p : String × Room)
    (h : p ∈ eraseRoom st t) : p ∈ st := by
  induction st with
  | nil => simp [eraseRoom] at h
  | cons q rest ih =>
      by_cases hq : q.1 = t
      · have hb : (q.1 == t) = true := by simpa using hq
        simp only [eraseRoom, hb, if_true] at h
        exact List.mem_cons_of_mem _ h
      · have hb : (q.1 == t) = false := by simpa using hq
        simp only [eraseRoom, hb, if_false] at h
        rcases List.mem_cons.mp h with h1 | h1
        · simp [h1]
        · exact List.mem_cons_of_mem _ (ih h1)

theorem eraseRoom_cons_self (t : String) (rm : Room) (rest : Registry) :
    eraseRoom ((t, rm) :: rest) t = rest := by
  simp [eraseRoom]

theorem eraseRoom_append_left (pre rest : Registry) (t : String)
    (h : t ∉ pre.map (fun p => p.1)) :
    eraseRoom (pre ++ rest) t = pre ++ eraseRoom rest t := by
  induction pre with
  | nil => simp
  | cons p pre ih =>
      simp only [List.map_cons, List.mem_cons] at h
      push_neg at h
      have hb : (p.1 == t) = false := by simpa using Ne.symm h.1
      have hs : eraseRoom (p :: (pre ++ rest)) t =
          p :: eraseRoom (pre ++ rest) t := by
        simp [eraseRoom, hb]
      rw [List.cons_append, hs, ih h.2, List.cons_append]

/-! Characterization of the sweeper loop. -/

/-- Invariant-style description of the sweeper loop: when the pending keys
are exactly the keys of the `rest` part of the registry and all keys are
distinct, the loop keeps the already-scanned prefix plus the entries of
`rest` with `expiry >= now`, and appends one `room_expired` emit per entry
of `rest` with `expiry < now`, in registry order. -/
theorem cleanupLoop_spec (now : Int) (rest : Registry) : ∀ (pre : Registry)
    (acc : List Act),
    ((pre ++ rest).map (fun p => p.1)).Nodup →
    cleanupLoop now (rest.map (fun p => p.1)) (pre ++ rest) acc =
      (pre ++ rest.filter (fun p => decide (now ≤ p.2.expiry)),
       acc ++ (rest.filter (fun p => decide (p.2.expiry < now))).map
         (fun p => Act.emit "room_expired" OutPayload.empty p.1 true)) := by
  induction rest with
  | nil => intro pre acc _; simp [cleanupLoop]
  | cons q rest ih =>
      intro pre acc h
      obtain ⟨t, rm⟩ := q
      have hkeys : ((pre ++ (t, rm) :: rest).map (fun p => p.1)) =
          pre.map (fun p => p.1) ++ t :: rest.map (fun p => p.1) := by
        simp
      rw [hkeys] at h
      have hpre : t ∉ pre.map (fun p => p.1) := by
        intro hmem
        exact (List.disjoint_of_nodup_append h) hmem (List.mem_cons_self _ _)
      have hlook : lookupRoom (pre ++ (t, rm) :: rest) t = some rm := by
        rw [lookupRoom_append_left_none _ _ _ hpre, lookupRoom_cons_self]
      simp only [List.map_cons, cleanupLoop, hlook]
      by_cases hexp : now > rm.expiry
      · have herase : eraseRoom (pre ++ (t, rm) :: rest) t = pre ++ rest := by
          rw [eraseRoom_append_left _ _ _ hpre, eraseRoom_cons_self]
        have hnd : ((pre ++ rest).map (fun p => p.1)).Nodup := by
          have hsub : ((pre ++ rest).map (fun p => p.1)).Sublist
              (pre.map (fun p => p.1) ++ t :: rest.map (fun p => p.1)) := by
            simp only [List.map_append]
            exact List.Sublist.append_left (List.sublist_cons_self _ _) _
          exact List.Nodup.sublist hsub h
        rw [if_pos hexp, herase, ih pre
          (acc ++ [Act.emit "room_expired" OutPayload.empty t true]) hnd]
        have hkeep : (decide (now ≤ rm.expiry)) = false := by
          simp [not_le.mpr hexp]
        have hdrop : (decide (rm.expiry < now)) = true := by
          simp [hexp]
        simp [List.filter_cons, hkeep, hdrop]
      · have hnd : (((pre ++ [(t, rm)]) ++ rest).map (fun p => p.1)).Nodup := by
          simpa using h
        have hre : pre ++ (t, rm) :: rest = (pre ++ [(t, rm)]) ++ rest := by
          simp
        rw [if_neg hexp, hre, ih (pre ++ [(t, rm)]) acc hnd]
        have hkeep : (decide (now ≤ rm.expiry)) = true := by
          simpa using not_lt.mp hexp
        have hdrop : (decide (rm.expiry < now)) = false := by
          simpa using not_lt.mp hexp
        simp [List.filter_cons, hkeep, hdrop]

/-- One sweeper pass keeps exactly the rooms with `expiry >= now`, in
order, and emits one `room_expired` per strictly expired room. -/
theorem cleanup_rooms_spec (st : Registry) (now : Int)
    (h : (st.map (fun p => p.1)).Nodup) :
    cleanup_rooms st now =
      (st.filter (fun p => decide (now ≤ p.2.expiry)),
       (st.filter (fun p => decide (p.2.expiry < now))).map
         (fun p => Act.emit "room_expired" OutPayload.empty p.1 true)) := by
  have := cleanupLoop_spec now st [] [] (by simpa using h)
  simpa [cleanup_rooms] using this

/-! Frame helpers: the stateless handlers never touch the registry. -/

theorem handle_message_registry (st : Registry) (d : Data) :
    regAfter st (handle_message st d) = st := by
  cases hd : d.token with
  | none => simp [handle_message, hd, regAfter]
  | some t => cases hl : lookupRoom st t <;>
      simp [handle_message, hd, hl, regAfter]

theorem handle_typing_registry (st : Registry) (d : Data) :
    regAfter st (handle_typing st d) = st := by
  cases hd : d.token <;> simp [handle_typing, hd, regAfter]

theorem handle_stop_typing_registry (st : Registry) (d : Data) :
    regAfter st (handle_stop_typing st d) = st := by
  cases hd : d.token <;> simp [handle_stop_typing, hd, regAfter]

theorem confirm_delivery_registry (st : Registry) (d : Data) :
    regAfter st (confirm_delivery st d) = st := by
  cases hd : d.sender_socket_id with
  | none => simp [confirm_delivery, hd, regAfter]
  | some s =>
      by_cases hs : s = ""
      · simp [confirm_delivery, hd, hs, regAfter]
      · cases hm : d.msg_id <;> simp [confirm_delivery, hd, hs, hm, regAfter]

theorem share_metrics_registry (st : Registry) (d : Data) :
    regAfter st (share_metrics st d) = st := by
  cases hd : d.token with
  | none => simp [share_metrics, hd, regAfter]
  | some t => cases hg : d.ping <;> simp [share_metrics, hd, hg, regAfter]

/-- Entries surviving the sweeper loop were already in the registry. -/
theorem mem_cleanupLoop (now : Int) : ∀ (ks : List String)
    (st : Registry) (acc : List Act) (p : String × Room),
    p ∈ (cleanupLoop now ks st acc).1 → p ∈ st := by
  intro ks
  induction ks with
  | nil => intro st acc p hp; simpa [cleanupLoop] using hp
  | cons t ks ih =>
      intro st acc p hp
      cases hl : lookupRoom st t with
      | none =>
          simp only [cleanupLoop, hl] at hp
          exact ih _ _ _ hp
      | some rm =>
          by_cases hexp : now > rm.expiry
          · simp only [cleanupLoop, hl, if_pos hexp] at hp
            exact mem_eraseRoom _ _ _ (ih _ _ _ hp)
          · simp only [cleanupLoop, hl, if_neg hexp] at hp
            exact ih _ _ _ hp

/-! Reachable registry states.  An execution is a sequence of events: room
creations, socket events, and sweeper passes, each applied to the shared
`active_rooms` dict. -/

/-- One event hitting the server. -/
inductive Event where
  | create (token : String) (now : Int)
  | join (d : Data)
  | leave (d : Data)
  | message (d : Data)
  | confirm (d : Data)
  | typing (d : Data)
  | stopTyping (d : Data)
  | ping (now : Int)
  | metrics (d : Data)
  | sweep (now : Int)

/-- Effect of one event on the shared registry (an exception escaping a
handler leaves the registry as the handler last left it). -/
def stepReg (st : Registry) : Event → Registry
  | Event.create t now => (generate_token st t now).1
  | Event.join d => regAfter st (on_join st d)
  | Event.leave d => regAfter st (on_leave st d)
  | Event.message d => regAfter st (handle_message st d)
  | Event.confirm d => regAfter st (confirm_delivery st d)
  | Event.typing d => regAfter st (handle_typing st d)
  | Event.stopTyping d => regAfter st (handle_stop_typing st d)
  | Event.ping now => (ping_check st now).1
  | Event.metrics d => regAfter st (share_metrics st d)
  | Event.sweep now => (cleanup_rooms st now).1

/-- The registry after an event sequence, starting from the empty dict. -/
def reach (evs : List Event) : Registry :=
  evs.foldl stepReg []

/-- Every room's member count is non-negative. -/
def allNonneg (st : Registry) : Prop := ∀ p ∈ st, 0 ≤ p.2.users

theorem allNonneg_step (st : Registry) (e : Event) (h : allNonneg st) :
    allNonneg (stepReg st e) := by
  cases e with
  | create t now =>
      intro p hp
      simp only [stepReg, generate_token] at hp
      rcases mem_setRoom _ _ _ _ hp with h1 | h1
      · simp [h1]
      · exact h p h1
  | join d =>
      intro p hp
      cases hd : d.token with
      | none =>
          simp only [stepReg, on_join, hd, regAfter] at hp
          exact h p hp
      | some t =>
          cases hl : lookupRoom st t with
          | none =>
              simp only [stepReg, on_join, hd, hl, regAfter] at hp
              exact h p hp
          | some rm =>
              simp only [stepReg, on_join, hd, hl, regAfter] at hp
              rcases mem_setRoom _ _ _ _ hp with h1 | h1
              · have hrm : 0 ≤ rm.users := h _ (mem_of_lookupRoom _ _ _ hl)
                rw [h1]
                simp only []
                omega
              · exact h p h1
  | leave d =>
      intro p hp
      cases hd : d.token with
      | none =>
          simp only [stepReg, on_leave, hd, regAfter] at hp
          exact h p hp
      | some t =>
          cases hl : lookupRoom st t with
          | none =>
              simp only [stepReg, on_leave, hd, hl, regAfter] at hp
              exact h p hp
          | some rm =>
              simp only [stepReg, on_leave, hd, hl, regAfter] at hp
              rcases mem_setRoom _ _ _ _ hp with h1 | h1
              · rw [h1]
                exact le_max_left _ _
              · exact h p h1
  | message d =>
      intro p hp
      rw [show stepReg st (Event.message d) = st from
        handle_message_registry st d] at hp
      exact h p hp
  | confirm d =>
      intro p hp
      rw [show stepReg st (Event.confirm d) = st from
        confirm_delivery_registry st d] at hp
      exact h p hp
  | typing d =>
      intro p hp
      rw [show stepReg st (Event.typing d) = st from
        handle_typing_registry st d] at hp
      exact h p hp
  | stopTyping d =>
      intro p hp
      rw [show stepReg st (Event.stopTyping d) = st from
        handle_stop_typing_registry st d] at hp
      exact h p hp
  | ping now => exact h
  | metrics d =>
      intro p hp
      rw [show stepReg st (Event.metrics d) = st from
        share_metrics_registry st d] at hp
      exact h p hp
  | sweep now =>
      intro p hp
      exact h p (mem_cleanupLoop now _ _ _ _ hp)

theorem allNonneg_foldl (evs : List Event) : ∀ (st : Registry),
    allNonneg st → allNonneg (evs.foldl stepReg st) := by
  induction evs with
  | nil => intro st h; simpa using h
  | cons e evs ih =>
      intro st h
      exact ih _ (allNonneg_step st e h)

theorem allNonneg_reach (evs : List Event) : allNonneg (reach evs) :=
  allNonneg_foldl evs [] (by intro p hp; simp at hp)

/-! Claim theorems. -/

/-- C1 counterexample: at time 1 the token `t` (expiry 0) is not a
currently valid room — `validate_token` rejects it — yet `join` still
mutates the registry and broadcasts; and `typing` on a token that names no
room at all still emits its broadcast.  This refutes the claim that every
relay handler is a silent no-op on a token that is not currently valid. -/
theorem token_validation_counterexample :
    validate_token [("t", Room.mk 0 0)] (some "t") 1 =
      { valid := false, remaining := none } ∧
    on_join [("t", Room.mk 0 0)] { token := some "t" } =
      Except.ok ([("t", Room.mk 0 1)],
        [Act.joinRoom "t",
         Act.emit "update_status" (OutPayload.status 1) "t" true]) ∧
    lookupRoom [] "x" = none ∧
    handle_typing [] { token := some "x" } =
      Except.ok ([], [Act.emit "display_typing" OutPayload.empty "x" false]) :=
  ⟨rfl, rfl, rfl, rfl⟩

/-- C1 amended: `join`, `leave` and `message` are silent no-ops exactly
when the token is absent from the registry (mere presence is checked,
never expiry, so a present-but-expired token is processed normally),
while `typing`, `stop_typing` and `share_metrics` perform no token
validation at all and always emit their broadcast. -/
theorem token_validation_amended (st : Registry) (d : Data) (t : String)
    (rm : Room) (pg : Int) :
    (d.token = some t → lookupRoom st t = none →
      on_join st d = Except.ok (st, []) ∧
      on_leave st d = Except.ok (st, []) ∧
      handle_message st d = Except.ok (st, [])) ∧
    (d.token = some t → lookupRoom st t = some rm →
      on_join st d =
        Except.ok (setRoom st t { rm with users := rm.users + 1 },
          [Act.joinRoom t,
           Act.emit "update_status" (OutPayload.status (rm.users + 1)) t
             true]) ∧
      on_leave st d =
        Except.ok (setRoom st t { rm with users := max 0 (rm.users - 1) },
          [Act.leaveRoom t,
           Act.emit "update_status"
             (OutPayload.status (max 0 (rm.users - 1))) t true]) ∧
      handle_message st d =
        Except.ok (st, [Act.emit "message" (OutPayload.message d) t
          true])) ∧
    (d.token = some t →
      handle_typing st d =
        Except.ok (st, [Act.emit "display_typing" OutPayload.empty t
          false]) ∧
      handle_stop_typing st d =
        Except.ok (st, [Act.emit "hide_typing" OutPayload.empty t
          false])) ∧
    (d.token = some t → d.ping = some pg →
      share_metrics st d =
        Except.ok (st, [Act.emit "update_peer_metrics"
          (OutPayload.metrics pg) t false])) := by
  refine ⟨fun hd hl => ⟨?_, ?_, ?_⟩, fun hd hl => ⟨?_, ?_, ?_⟩,
    fun hd => ⟨?_, ?_⟩, fun hd hg => ?_⟩
  · simp [on_join, hd, hl]
  · simp [on_leave, hd, hl]
  · simp [handle_message, hd, hl]
  · simp [on_join, hd, hl]
  · simp [on_leave, hd, hl]
  · simp [handle_message, hd, hl]
  · simp [handle_typing, hd]
  · simp [handle_stop_typing, hd]
  · simp [share_metrics, hd, hg]

/-- C1 amended, witnessed at a concrete registry and payloads: absent
token makes join a no-op, while join, leave and message all act on the
present token `a`, and typing emits even on the absent token `z`. -/
theorem token_validation_amended_witness :
    on_join [("a", Room.mk 50 3)] { token := some "z" } =
      Except.ok ([("a", Room.mk 50 3)], []) ∧
    on_join [("a", Room.mk 50 3)] { token := some "a" } =
      Except.ok (setRoom [("a", Room.mk 50 3)] "a" (Room.mk 50 (3 + 1)),
        [Act.joinRoom "a",
         Act.emit "update_status" (OutPayload.status (3 + 1)) "a" true]) ∧
    on_leave [("a", Room.mk 50 3)] { token := some "a" } =
      Except.ok
        (setRoom [("a", Room.mk 50 3)] "a" (Room.mk 50 (max 0 (3 - 1))),
        [Act.leaveRoom "a",
         Act.emit "update_status" (OutPayload.status (max 0 (3 - 1))) "a"
           true]) ∧
    handle_message [("a", Room.mk 50 3)] { token := some "a" } =
      Except.ok ([("a", Room.mk 50 3)],
        [Act.emit "message" (OutPayload.message { token := some "a" }) "a"
          true]) ∧
    handle_typing [("a", Room.mk 50 3)] { token := some "z" } =
      Except.ok ([("a", Room.mk 50 3)],
        [Act.emit "display_typing" OutPayload.empty "z" false]) := by
  refine ⟨?_, ?_, ?_, ?_, ?_⟩
  · exact ((token_validation_amended [("a", Room.mk 50 3)]
      { token := some "z" } "z" (Room.mk 0 0) 0).1 rfl (by decide)).1
  · exact ((token_validation_amended [("a", Room.mk 50 3)]
      { token := some "a" } "a" (Room.mk 50 3) 0).2.1 rfl (by decide)).1
  · exact ((token_validation_amended [("a", Room.mk 50 3)]
      { token := some "a" } "a" (Room.mk 50 3) 0).2.1 rfl (by decide)).2.1
  · exact ((token_validation_amended [("a", Room.mk 50 3)]
      { token := some "a" } "a" (Room.mk 50 3) 0).2.1 rfl (by decide)).2.2
  · exact ((token_validation_amended [("a", Room.mk 50 3)]
      { token := some "z" } "z" (Room.mk 0 0) 0).2.2.1 rfl).1

/-- C3 counterexample: a room whose expiry equals the sweep time satisfies
`expiry <= now`, but the sweeper's strict comparison `now > expiry` keeps
it and emits nothing. -/
theorem sweep_boundary_counterexample :
    (Room.mk 5 0).expiry ≤ (5 : Int) ∧
    cleanup_rooms [("t", Room.mk 5 0)] 5 = ([("t", Room.mk 5 0)], []) :=
  ⟨by decide, rfl⟩

/-- C3 amended: one sweeper pass removes exactly the rooms with
`expiry < now` (strictly in the past), leaving the others in place
verbatim, and emits exactly one `room_expired` broadcast to each removed
room's group, in registry order, as part of discarding it. -/
theorem sweep_amended (st : Registry) (now : Int)
    (h : (st.map (fun p => p.1)).Nodup) :
    (cleanup_rooms st now).1 =
      st.filter (fun p => decide (now ≤ p.2.expiry)) ∧
    (cleanup_rooms st now).2 =
      (st.filter (fun p => decide (p.2.expiry < now))).map
        (fun p => Act.emit "room_expired" OutPayload.empty p.1 true) := by
  rw [cleanup_rooms_spec st now h]
  exact ⟨rfl, rfl⟩

/-- C3 amended, witnessed on a two-room registry swept at time 6. -/
theorem sweep_amended_witness :
    (cleanup_rooms [("a", Room.mk 5 0), ("b", Room.mk 7 2)] 6).1 =
      [("b", Room.mk 7 2)] ∧
    (cleanup_rooms [("a", Room.mk 5 0), ("b", Room.mk 7 2)] 6).2 =
      [Act.emit "room_expired" OutPayload.empty "a" true] := by
  have h := sweep_amended [("a", Room.mk 5 0), ("b", Room.mk 7 2)] 6
    (by decide)
  exact ⟨h.1.trans (by decide), h.2.trans (by decide)⟩

/-- C4: in every reachable registry state every room's member count is
non-negative; a `join` on a present token increments it by exactly 1 and a
`leave` on a present token decrements it by exactly 1 floored at 0. -/
theorem member_count_nonneg :
    (∀ evs : List Event, ∀ p ∈ reach evs, 0 ≤ p.2.users) ∧
    (∀ (st : Registry) (d : Data) (t : String) (rm : Room),
      d.token = some t → lookupRoom st t = some rm →
      on_join st d =
        Except.ok (setRoom st t { rm with users := rm.users + 1 },
          [Act.joinRoom t,
           Act.emit "update_status" (OutPayload.status (rm.users + 1)) t
             true]) ∧
      lookupRoom (regAfter st (on_join st d)) t =
        some { rm with users := rm.users + 1 }) ∧
    (∀ (st : Registry) (d : Data) (t : String) (rm : Room),
      d.token = some t → lookupRoom st t = some rm →
      on_leave st d =
        Except.ok (setRoom st t { rm with users := max 0 (rm.users - 1) },
          [Act.leaveRoom t,
           Act.emit "update_status"
             (OutPayload.status (max 0 (rm.users - 1))) t true]) ∧
      lookupRoom (regAfter st (on_leave st d)) t =
        some { rm with users := max 0 (rm.users - 1) }) := by
  refine ⟨fun evs => allNonneg_reach evs, ?_, ?_⟩
  · intro st d t rm hd hl
    have he : on_join st d =
        Except.ok (setRoom st t { rm with users := rm.users + 1 },
          [Act.joinRoom t,
           Act.emit "update_status" (OutPayload.status (rm.users + 1)) t
             true]) := by
      simp [on_join, hd, hl]
    refine ⟨he, ?_⟩
    rw [he]
    exact lookupRoom_setRoom_self st t _
  · intro st d t rm hd hl
    have he : on_leave st d =
        Except.ok (setRoom st t { rm with users := max 0 (rm.users - 1) },
          [Act.leaveRoom t,
           Act.emit "update_status"
             (OutPayload.status (max 0 (rm.users - 1))) t true]) := by
      simp [on_leave, hd, hl]
    refine ⟨he, ?_⟩
    rw [he]
    exact lookupRoom_setRoom_self st t _

/-- C4, witnessed: a reachable room after one create and one join has
count `0 <= 1`, and concrete join/leave adjust the count as stated. -/
theorem member_count_nonneg_witness :
    (0 : Int) ≤ (("t", Room.mk 600 0) : String × Room).2.users ∧
    on_join [("t", Room.mk 600 0)] { token := some "t" } =
      Except.ok (setRoom [("t", Room.mk 600 0)] "t" (Room.mk 600 (0 + 1)),
        [Act.joinRoom "t",
         Act.emit "update_status" (OutPayload.status (0 + 1)) "t" true]) ∧
    on_leave [("t", Room.mk 600 1)] { token := some "t" } =
      Except.ok
        (setRoom [("t", Room.mk 600 1)] "t" (Room.mk 600 (max 0 (1 - 1))),
        [Act.leaveRoom "t",
         Act.emit "update_status" (OutPayload.status (max 0 (1 - 1))) "t"
           true]) := by
  refine ⟨?_, ?_, ?_⟩
  · exact member_count_nonneg.1 [Event.create "t" 0] ("t", Room.mk 600 0)
      (by decide)
  · exact (member_count_nonneg.2.1 [("t", Room.mk 600 0)]
      { token := some "t" } "t" (Room.mk 600 0) rfl (by decide)).1
  · exact (member_count_nonneg.2.2 [("t", Room.mk 600 1)]
      { token := some "t" } "t" (Room.mk 600 1) rfl (by decide)).1

/-- C5: `validate_token` answers `valid: true` with
`remaining = expiry - now > 0` exactly when the token is present with its
expiry in the future; immediately after `generate_token` it answers
`valid: true` with `remaining = ROOM_TTL`; on an absent token (never
created) it answers `valid: false` with no `remaining` field. -/
theorem validate_token_spec (st : Registry) (t : String) (now : Int) :
    ((validate_token st (some t) now).valid = true ↔
      ∃ rm, lookupRoom st t = some rm ∧ now < rm.expiry) ∧
    (∀ rm, lookupRoom st t = some rm → now < rm.expiry →
      validate_token st (some t) now =
        { valid := true, remaining := some (rm.expiry - now) } ∧
      0 < rm.expiry - now) ∧
    ((validate_token st (some t) now).valid = false →
      (validate_token st (some t) now).remaining = none) ∧
    validate_token (generate_token st t now).1 (some t) now =
      { valid := true, remaining := some ROOM_TTL } ∧
    (lookupRoom st t = none →
      validate_token st (some t) now =
        { valid := false, remaining := none }) := by
  refine ⟨?_, ?_, ?_, ?_, ?_⟩
  · cases hl : lookupRoom st t with
    | none => simp [validate_token, hl]
    | some rm =>
        by_cases hexp : rm.expiry - now > 0
        · simp only [validate_token, hl, if_pos hexp]
          constructor
          · intro _
            exact ⟨rm, rfl, by omega⟩
          · intro _
            trivial
        · simp only [validate_token, hl, if_neg hexp]
          constructor
          · intro hfalse
            cases hfalse
          · rintro ⟨rm2, hrm2, hlt⟩
            cases hrm2
            omega
  · intro rm hl hlt
    have hexp : rm.expiry - now > 0 := by omega
    refine ⟨?_, by omega⟩
    simp only [validate_token, hl, if_pos hexp]
  · cases hl : lookupRoom st t with
    | none => intro _; simp [validate_token, hl]
    | some rm =>
        by_cases hexp : rm.expiry - now > 0
        · simp only [validate_token, hl, if_pos hexp]
          intro hfalse
          cases hfalse
        · simp only [validate_token, hl, if_neg hexp]
          intro _
          trivial
  · have hl := lookupRoom_setRoom_self st t
      { expiry := now + ROOM_TTL, users := 0 }
    have hexp : now + ROOM_TTL - now > 0 := by
      simp only [ROOM_TTL]
      omega
    simp only [generate_token, validate_token, hl, if_pos hexp]
    have : now + ROOM_TTL - now = ROOM_TTL := by omega
    rw [this]
  · intro hl
    simp [validate_token, hl]

/-- C5, witnessed: a room created at time 100 validates at time 100 with
the full TTL remaining, and an absent token validates false. -/
theorem validate_token_spec_witness :
    validate_token (generate_token [] "tk" 100).1 (some "tk") 100 =
      { valid := true, remaining := some ROOM_TTL } ∧
    validate_token [] (some "tk") 100 =
      { valid := false, remaining := none } ∧
    validate_token [("tk", Room.mk 110 0)] (some "tk") 100 =
      { valid := true, remaining := some ((110 : Int) - 100) } ∧
    (0 : Int) < 110 - 100 := by
  refine ⟨?_, ?_, ?_, ?_⟩
  · exact (validate_token_spec [] "tk" 100).2.2.2.1
  · exact (validate_token_spec [] "tk" 100).2.2.2.2 rfl
  · exact ((validate_token_spec [("tk", Room.mk 110 0)] "tk" 100).2.1
      (Room.mk 110 0) (by decide) (by decide)).1
  · exact ((validate_token_spec [("tk", Room.mk 110 0)] "tk" 100).2.1
      (Room.mk 110 0) (by decide) (by decide)).2

/-- C6 counterexample: a `confirm_delivery` payload that does carry a
`sender_socket_id` — the empty string — is silently dropped by the
truthiness test `if sender_sid:`, so no `msg_delivered` event is sent. -/
theorem confirm_delivery_counterexample :
    ({ sender_socket_id := some "", msg_id := some 1 } :
      Data).sender_socket_id = some "" ∧
    confirm_delivery [] { sender_socket_id := some "", msg_id := some 1 } =
      Except.ok ([], []) :=
  ⟨rfl, rfl⟩

/-- C6 amended: on a payload carrying a non-empty `sender_socket_id` and
an `msg_id`, the handler sends `msg_delivered {msg_id}` addressed to the
sender's personal room only — exactly that one connection, for any
current sender — and on a payload whose `sender_socket_id` is absent (or
empty) it sends nothing. -/
theorem confirm_delivery_amended :
    (∀ (st : Registry) (d : Data) (s : String) (m : Int)
      (groups : String → List String) (c : String),
      d.sender_socket_id = some s → s ≠ "" → d.msg_id = some m →
      groups s = [s] →
      confirm_delivery st d =
        Except.ok (st,
          [Act.emit "msg_delivered" (OutPayload.delivered m) s true]) ∧
      recipients groups c
        (Act.emit "msg_delivered" (OutPayload.delivered m) s true) = [s]) ∧
    (∀ (st : Registry) (d : Data), d.sender_socket_id = none →
      confirm_delivery st d = Except.ok (st, [])) ∧
    (∀ (st : Registry) (d : Data), d.sender_socket_id = some "" →
      confirm_delivery st d = Except.ok (st, [])) := by
  refine ⟨?_, ?_, ?_⟩
  · intro st d s m groups c hs hne hm hg
    constructor
    · simp [confirm_delivery, hs, hne, hm]
    · simp [recipients, hg]
  · intro st d hs
    simp [confirm_delivery, hs]
  · intro st d hs
    simp [confirm_delivery, hs]

/-- C6 amended, witnessed: a delivery confirmation from receiver `c` on
sender socket `sid1` is sent to exactly the connection `sid1`. -/
theorem confirm_delivery_amended_witness :
    confirm_delivery [] { sender_socket_id := some "sid1", msg_id := some 7 } =
      Except.ok ([],
        [Act.emit "msg_delivered" (OutPayload.delivered 7) "sid1" true]) ∧
    recipients (fun r => if r = "sid1" then ["sid1"] else ["c", "sid1"]) "c"
      (Act.emit "msg_delivered" (OutPayload.delivered 7) "sid1" true) =
      ["sid1"] ∧
    confirm_delivery [] ({} : Data) = Except.ok ([], []) := by
  refine ⟨?_, ?_, ?_⟩
  · exact (confirm_delivery_amended.1 []
      { sender_socket_id := some "sid1", msg_id := some 7 } "sid1" 7
      (fun r => if r = "sid1" then ["sid1"] else ["c", "sid1"]) "c"
      rfl (by decide) rfl (by simp)).1
  · exact (confirm_delivery_amended.1 []
      { sender_socket_id := some "sid1", msg_id := some 7 } "sid1" 7
      (fun r => if r = "sid1" then ["sid1"] else ["c", "sid1"]) "c"
      rfl (by decide) rfl (by simp)).2
  · exact confirm_delivery_amended.2.1 [] ({} : Data) rfl

/-- C7: `typing`, `stop_typing` and `share_metrics` each emit exactly one
broadcast to the token's room with `include_self=False`, so the delivered
set is the room's members minus the sending connection, and the sender is
never among the recipients. -/
theorem self_excluding_broadcast (st : Registry) (d : Data) (t : String)
    (pg : Int) (groups : String → List String) (sender : String)
    (ht : d.token = some t) (hp : d.ping = some pg) :
    handle_typing st d =
      Except.ok (st, [Act.emit "display_typing" OutPayload.empty t
        false]) ∧
    handle_stop_typing st d =
      Except.ok (st, [Act.emit "hide_typing" OutPayload.empty t false]) ∧
    share_metrics st d =
      Except.ok (st, [Act.emit "update_peer_metrics"
        (OutPayload.metrics pg) t false]) ∧
    (∀ (ev : String) (pl : OutPayload),
      recipients groups sender (Act.emit ev pl t false) =
        (groups t).filter (fun c => c != sender) ∧
      sender ∉ recipients groups sender (Act.emit ev pl t false)) := by
  refine ⟨?_, ?_, ?_, ?_⟩
  · simp [handle_typing, ht]
  · simp [handle_stop_typing, ht]
  · simp [share_metrics, ht, hp]
  · intro ev pl
    refine ⟨by simp [recipients], ?_⟩
    simp [recipients]

/-- C7, witnessed on a two-member room. -/
theorem self_excluding_broadcast_witness :
    handle_typing [("t", Room.mk 9 2)] { token := some "t", ping := some 3 } =
      Except.ok ([("t", Room.mk 9 2)],
        [Act.emit "display_typing" OutPayload.empty "t" false]) ∧
    recipients (fun _ => ["s1", "s2"]) "s1"
      (Act.emit "display_typing" OutPayload.empty "t" false) =
      (["s1", "s2"].filter (fun c => c != "s1")) ∧
    "s1" ∉ recipients (fun _ => ["s1", "s2"]) "s1"
      (Act.emit "display_typing" OutPayload.empty "t" false) := by
  have h := self_excluding_broadcast [("t", Room.mk 9 2)]
    { token := some "t", ping := some 3 } "t" 3 (fun _ => ["s1", "s2"])
    "s1" rfl rfl
  exact ⟨h.1, (h.2.2.2 "display_typing" OutPayload.empty).1,
    (h.2.2.2 "display_typing" OutPayload.empty).2⟩

/-- C8 (code bug in the source): a payload missing a required field makes
the handler raise `KeyError` instead of ignoring the event: `join`,
`leave`, `message`, `typing`, `stop_typing` and `share_metrics` subscript
`data['token']`, and `confirm_delivery` subscripts `data['msg_id']` after
a truthy `sender_socket_id`. -/
theorem malformed_payload_crash :
    on_join [] ({} : Data) = Except.error (Err.keyError "token") ∧
    on_leave [] ({} : Data) = Except.error (Err.keyError "token") ∧
    handle_message [] ({} : Data) = Except.error (Err.keyError "token") ∧
    handle_typing [] ({} : Data) = Except.error (Err.keyError "token") ∧
    handle_stop_typing [] ({} : Data) =
      Except.error (Err.keyError "token") ∧
    share_metrics [] ({} : Data) = Except.error (Err.keyError "token") ∧
    confirm_delivery [] { sender_socket_id := some "s" } =
      Except.error (Err.keyError "msg_id") :=
  ⟨rfl, rfl, rfl, rfl, rfl, rfl, rfl⟩

/-- C9: `message`, `typing`, `stop_typing`, `confirm_delivery`,
`ping_check` and `share_metrics` leave the registry exactly as it was —
no key is added or removed and no room field changes — whether they
deliver, no-op, or raise; in particular no activity extends an expiry. -/
theorem stateless_handlers_frame (st : Registry) (d : Data) (now : Int) :
    regAfter st (handle_message st d) = st ∧
    regAfter st (handle_typing st d) = st ∧
    regAfter st (handle_stop_typing st d) = st ∧
    regAfter st (confirm_delivery st d) = st ∧
    (ping_check st now).1 = st ∧
    regAfter st (share_metrics st d) = st :=
  ⟨handle_message_registry st d, handle_typing_registry st d,
   handle_stop_typing_registry st d, confirm_delivery_registry st d,
   rfl, share_metrics_registry st d⟩

/-- C10: an HTTP validate request whose JSON object lacks the `token` key
gets the normal `{valid: false}` answer — the same answer as any unknown
token — rather than an error. -/
theorem validate_missing_token_field (st : Registry) (now : Int) :
    validate_token st none now = { valid := false, remaining := none } ∧
    (∀ t, lookupRoom st t = none →
      validate_token st (some t) now = validate_token st none now) := by
  refine ⟨rfl, ?_⟩
  intro t hl
  simp [validate_token, hl]

/-- C10, witnessed on a registry holding one live room. -/
theorem validate_missing_token_field_witness :
    validate_token [("t", Room.mk 9 0)] none 5 =
      { valid := false, remaining := none } ∧
    validate_token [("t", Room.mk 9 0)] (some "u") 5 =
      validate_token [("t", Room.mk 9 0)] none 5 :=
  ⟨(validate_missing_token_field [("t", Room.mk 9 0)] 5).1,
   (validate_missing_token_field [("t", Room.mk 9 0)] 5).2 "u"
     (by decide)⟩

end Phantom
